import Mathlib

/-!
Verification development for the LitSearch backend.

We give a shallow embedding of the corpus-enrichment pipeline
(`services/corpus_builder.py`, with the surrounding background task of
`main.py`) and of the retrieval engine (`services/rag_engine.py`).

External collaborators (the arXiv discovery service, HTTP fetching plus
PDF text extraction, the `RecursiveCharacterTextSplitter`, the embedding
service, the language model, and the pgvector cosine-distance operator)
are modelled as oracle parameters; fallible ones return `Option`/`Except`.
Python strings are modelled as Lean `String` (sequences of code points),
database tables as lists of row records, and a SQLAlchemy session on the
chunk table as a pair of committed and pending rows.
-/

namespace LitSearch

/-- Python `s.split(c)` for a single separator character, over code points.
The result is always non-empty. -/
def splitOnChar (c : Char) : List Char → List (List Char)
  | [] => [[]]
  | x :: xs =>
    let r := splitOnChar c xs
    if x = c then [] :: r
    else (x :: r.headD []) :: r.tail

/-- The arXiv id of a search result: `result.entry_id.split('/')[-1]`. -/
def entryArxivId (entryId : String) : String :=
  ((splitOnChar '/' entryId.toList).getLastD []).asString

/-- Cleaning step of `_parse_pdf`: remove null bytes.  (The subsequent
surrogate-replacement round-trip is the identity on Lean strings, whose
characters are always valid unicode scalar values.) -/
def cleanText (s : String) : String :=
  (s.toList.filter (fun ch => ch ≠ Char.ofNat 0)).asString

/-- `config.MAX_PAPERS`. -/
def MAX_PAPERS : Nat := 100

/-- One record returned by the arXiv discovery service. -/
structure SearchResult where
  entry_id : String
  title : String
  authors : List String
  summary : String
  pdf_url : String

deriving instance DecidableEq for SearchResult

/-- A candidate paper as assembled in the fetching loop of `build_corpus`. -/
structure Paper where
  arxiv_id : String
  title : String
  authors : List String
  summary : String
  pdf_url : String

deriving instance DecidableEq for Paper

/-- A paper after the parsing stage, with its `full_text` field set. -/
structure ParsedPaper where
  paper : Paper
  full_text : String

deriving instance DecidableEq for ParsedPaper

/-- A LangChain `Document` produced by `_chunk_paper`, with its metadata
dictionary flattened into fields. -/
structure Doc where
  page_content : String
  arxiv_id : String
  title : String
  «section» : String
  authors : String
  pdf_url : String

deriving instance DecidableEq for Doc

/-- A row of the `papers_chunks` table, with `paper_metadata` flattened. -/
structure PaperChunkRow where
  job_id : String
  article_id : String
  path : String
  content : String
  embedding : List ℚ
  meta_title : String
  meta_section : String
  meta_authors : String

deriving instance DecidableEq for PaperChunkRow

/-- The chunk table seen through one SQLAlchemy session: committed rows
plus rows added but not yet committed. -/
structure DbState where
  committed : List PaperChunkRow
  pending : List PaperChunkRow

deriving instance DecidableEq for DbState

/-- `db.add(row)`. -/
def addRow (db : DbState) (r : PaperChunkRow) : DbState :=
  ⟨db.committed, db.pending ++ [r]⟩

/-- `db.commit()`. -/
def commitDb (db : DbState) : DbState :=
  ⟨db.committed ++ db.pending, []⟩

/-- `db.rollback()`. -/
def rollbackDb (db : DbState) : DbState :=
  ⟨db.committed, []⟩

/-- An invocation of the progress callback: `(status, current, total)`. -/
abbrev Event := String × Nat × Nat

/-- `get_existing_article_ids`: the distinct truthy (non-empty)
`article_id` values of the chunk table. -/
def getExistingArticleIds (rows : List PaperChunkRow) : List String :=
  ((rows.map (fun r => r.article_id)).filter (fun a => a ≠ "")).dedup

/-- The paper record assembled from one kept search result. -/
def paperOf (r : SearchResult) : Paper :=
  ⟨entryArxivId r.entry_id, r.title, r.authors, r.summary, r.pdf_url⟩

/-- The fetching loop of `build_corpus`: enumerate the search results from
index `i`, drop (and count) candidates whose arXiv id is in `existing`,
and emit a progress event for every kept candidate whose index is a
multiple of 10.  Returns `(papers, skipped, events)`. -/
def fetchLoop (existing : List String) :
    List SearchResult → Nat → List Paper × Nat × List Event
  | [], _ => ([], 0, [])
  | r :: rs, i =>
    let aid := entryArxivId r.entry_id
    let rest := fetchLoop existing rs (i + 1)
    if aid ∈ existing then
      (rest.1, rest.2.1 + 1, rest.2.2)
    else
      (paperOf r :: rest.1,
       rest.2.1,
       if i % 10 = 0 then ("fetching", i, MAX_PAPERS) :: rest.2.2 else rest.2.2)

/-- `_parse_pdf`, with the network fetch and PDF page extraction as an
oracle outcome: `none` models an exception inside the `try` block, `some
raw` the concatenated page text.  Exceptions are caught and, like a
cleaned text of length at most 500, turned into `None`. -/
def parsePdf (fetched : Option String) : Option String :=
  match fetched with
  | none => none
  | some raw =>
    let text := cleanText raw
    if 500 < text.length then some text else none

/-- The fallback full text: `f"{paper['title']}\n\n{paper['summary']}"`. -/
def fallbackText (p : Paper) : String :=
  p.title ++ "\n\n" ++ p.summary

/-- The full text a paper receives in the parsing loop: the extracted
text when `_parse_pdf` returns one, the fallback otherwise. -/
def fullTextOf (oracle : String → Option String) (p : Paper) : String :=
  match parsePdf (oracle p.pdf_url) with
  | some t => t
  | none => fallbackText p

/-- The parsing loop of `build_corpus`: assign each paper its full text
(extracted, or the fallback), emitting a progress event every 10 papers. -/
def parseLoop (oracle : String → Option String) :
    List Paper → Nat → Nat → List ParsedPaper × List Event
  | [], _, _ => ([], [])
  | p :: ps, i, total =>
    let rest := parseLoop oracle ps (i + 1) total
    (⟨p, fullTextOf oracle p⟩ :: rest.1,
     if i % 10 = 0 then ("parsing", i, total) :: rest.2 else rest.2)

/-- `_chunk_paper`: one `title_abstract` chunk followed by the body chunks
produced by the (opaque) recursive character splitter. -/
def chunkPaper (split : String → List String) (pp : ParsedPaper) : List Doc :=
  let p := pp.paper
  let auth := String.intercalate ", " (p.authors.take 3)
  ⟨"Title: " ++ p.title ++ "\n\nAbstract: " ++ p.summary,
    p.arxiv_id, p.title, "title_abstract", auth, p.pdf_url⟩ ::
  (split pp.full_text).map
    (fun t => ⟨t, p.arxiv_id, p.title, "body", auth, p.pdf_url⟩)

/-- The chunking loop of `build_corpus`: concatenate each paper's chunks
in order, emitting a progress event every 20 papers. -/
def chunkLoop (split : String → List String) :
    List ParsedPaper → Nat → Nat → List Doc × List Event
  | [], _, _ => ([], [])
  | pp :: pps, i, total =>
    let rest := chunkLoop split pps (i + 1) total
    (chunkPaper split pp ++ rest.1,
     if i % 20 = 0 then ("chunking", i, total) :: rest.2 else rest.2)

/-- Fuel-driven worker for `groupsOf` (structural recursion so that the
kernel can evaluate it). -/
def groupsOfGo (n : Nat) : Nat → List α → List (List α)
  | _, [] => []
  | 0, l => [l]
  | Nat.succ fuel, l => l.take n :: groupsOfGo n fuel (l.drop n)

/-- The successive slices `l[i:i+n]` for `i in range(0, len(l), n)`: the
batching of the embedding loop of `build_corpus` (with `n = 100`). -/
def groupsOf (n : Nat) (l : List α) : List (List α) :=
  groupsOfGo n l.length l

/-- One operation of the embedding loop, in trace order. -/
inductive EmbedOp where
  | call (texts : List String) : EmbedOp
  | commit : EmbedOp
  | progress (e : Event) : EmbedOp

deriving instance DecidableEq for EmbedOp

/-- The `PaperChunk(...)` record constructed for one chunk and its
embedding vector. -/
def mkRow (jobId : String) (cv : Doc × List ℚ) : PaperChunkRow :=
  ⟨jobId, cv.1.arxiv_id, cv.1.pdf_url, cv.1.page_content, cv.2,
    cv.1.title, cv.1.«section», cv.1.authors⟩

/-- The rows one batch contributes once committed: the batch zipped with
the embedding service's vectors (none if the service fails on it). -/
def batchRows (oracle : List String → Except String (List (List ℚ)))
    (jobId : String) (b : List Doc) : List PaperChunkRow :=
  match oracle (b.map (fun c => c.page_content)) with
  | .ok vs => (b.zip vs).map (mkRow jobId)
  | .error _ => []

/-- The embedding loop of `build_corpus`, one iteration per batch: a
single batched call to the embedding service, one row added per
(chunk, vector) pair, one commit, then one progress event
`("embedding", min(i + 100, total), total)`.  A service failure
propagates, carrying the session state at the moment it was raised.
Returns the operation trace and the outcome. -/
def embedBatches (oracle : List String → Except String (List (List ℚ)))
    (jobId : String) (total : Nat) :
    List (List Doc) → Nat → DbState →
    List EmbedOp × Except (String × DbState) DbState
  | [], _, db => ([], .ok db)
  | b :: bs, i, db =>
    let texts := b.map (fun c => c.page_content)
    match oracle texts with
    | .error e => ([.call texts], .error (e, db))
    | .ok vs =>
      let db1 := (b.zip vs).foldl (fun d cv => addRow d (mkRow jobId cv)) db
      let db2 := commitDb db1
      let ev : Event := ("embedding", min (i + 100) total, total)
      let rest := embedBatches oracle jobId total bs (i + 100) db2
      (.call texts :: .commit :: .progress ev :: rest.1, rest.2)

/-- The external collaborators of one enrichment run. -/
structure BuildInputs where
  jobId : String
  searchOutcome : Except String (List SearchResult)
  fetchOracle : String → Option String
  splitOracle : String → List String
  embedOracle : List String → Except String (List (List ℚ))

/-- Everything observable about one `build_corpus` call. -/
structure RunOutcome where
  events : List Event
  embedOps : List EmbedOp
  db : DbState
  papers : List Paper
  skipped : Nat
  allChunks : List Doc
  err : Option String

/-- The progress events among an embedding-loop operation trace. -/
def opsEvents (ops : List EmbedOp) : List Event :=
  ops.filterMap (fun o => match o with | .progress e => some e | _ => none)

/-- The result of the fetching stage of a run: the loop over the
discovery results, started at index 0, against the dedup snapshot of the
committed rows at run start. -/
def pipeFetched (db0 : DbState) (rs : List SearchResult) :
    List Paper × Nat × List Event :=
  fetchLoop (getExistingArticleIds db0.committed) rs 0

/-- The candidate papers a run keeps. -/
def pipePapers (db0 : DbState) (rs : List SearchResult) : List Paper :=
  (pipeFetched db0 rs).1

/-- The result of the parsing stage of a run. -/
def pipeParsed (inp : BuildInputs) (db0 : DbState) (rs : List SearchResult) :
    List ParsedPaper × List Event :=
  parseLoop inp.fetchOracle (pipePapers db0 rs) 0 (pipePapers db0 rs).length

/-- The result of the chunking stage of a run. -/
def pipeChunked (inp : BuildInputs) (db0 : DbState) (rs : List SearchResult) :
    List Doc × List Event :=
  chunkLoop inp.splitOracle (pipeParsed inp db0 rs).1 0 (pipePapers db0 rs).length

/-- The full ordered chunk sequence of a run. -/
def pipeChunks (inp : BuildInputs) (db0 : DbState) (rs : List SearchResult) :
    List Doc :=
  (pipeChunked inp db0 rs).1

/-- The result of the embedding stage of a run. -/
def pipeEmb (inp : BuildInputs) (db0 : DbState) (rs : List SearchResult) :
    List EmbedOp × Except (String × DbState) DbState :=
  embedBatches inp.embedOracle inp.jobId (pipeChunks inp db0 rs).length
    (groupsOf 100 (pipeChunks inp db0 rs)) 0 db0

/-- All progress-callback invocations of a run that passes discovery, in
order: the pre-loop `fetching` event, then each stage's pre-event and
intra-stage checkpoints. -/
def pipeEvents (inp : BuildInputs) (db0 : DbState) (rs : List SearchResult) :
    List Event :=
  ("fetching", 0, MAX_PAPERS) :: (pipeFetched db0 rs).2.2
    ++ ("parsing", 0, (pipePapers db0 rs).length) :: (pipeParsed inp db0 rs).2
    ++ ("chunking", 0, (pipePapers db0 rs).length) :: (pipeChunked inp db0 rs).2
    ++ ("embedding", 0, (pipeChunks inp db0 rs).length)
        :: opsEvents (pipeEmb inp db0 rs).1

/-- `build_corpus`: the linear pipeline fetch → parse → chunk → embed,
deduplicating against the snapshot of `article_id`s taken at run start
and emitting progress events at stage boundaries and intra-stage
checkpoints.  A discovery-service failure (the `search.results()`
iterator raising) or an embedding-service failure is recorded in `err`
and ends the run at that point. -/
def buildCorpus (inp : BuildInputs) (db0 : DbState) : RunOutcome :=
  match inp.searchOutcome with
  | .error e =>
    ⟨[("fetching", 0, MAX_PAPERS)], [], db0, [], 0, [], some e⟩
  | .ok rs =>
    match (pipeEmb inp db0 rs).2 with
    | .error ed =>
      ⟨pipeEvents inp db0 rs, (pipeEmb inp db0 rs).1, ed.2, pipePapers db0 rs,
        (pipeFetched db0 rs).2.1, pipeChunks inp db0 rs, some ed.1⟩
    | .ok db1 =>
      ⟨pipeEvents inp db0 rs, (pipeEmb inp db0 rs).1, db1, pipePapers db0 rs,
        (pipeFetched db0 rs).2.1, pipeChunks inp db0 rs, none⟩

/-- The `progress` column of the job row. -/
inductive Progress where
  | step (s : String) (current total : Nat)
  | failure (msg : String)

deriving instance DecidableEq for Progress

/-- What the background task leaves behind: the ordered trace of values
written to the job's `status` column (the initial `"extracting"` of job
creation included), the final status and progress, and the chunk-table
session state. -/
structure TaskResult where
  statusWrites : List String
  finalStatus : String
  finalProgress : Progress
  db : DbState

deriving instance DecidableEq for TaskResult

/-- The job progress after the last callback (the creation-time progress
if no callback ran). -/
def lastStepProgress (events : List Event) : Progress :=
  match events.getLast? with
  | some e => .step e.1 e.2.1 e.2.2
  | none => .step "extracting" 0 0

/-- `build_corpus_task` (together with job creation): run `build_corpus`;
on success `build_corpus` itself sets the job to `ready` and commits; on
any pipeline failure the task rolls the session back, then sets the job
to `error` with the failure message as its progress. -/
def buildCorpusTask (inp : BuildInputs) (db0 : DbState) : TaskResult :=
  let r := buildCorpus inp db0
  match r.err with
  | none =>
    ⟨"extracting" :: r.events.map (fun e => e.1) ++ ["ready"],
      "ready", lastStepProgress r.events, commitDb r.db⟩
  | some e =>
    ⟨"extracting" :: r.events.map (fun e => e.1) ++ ["error"],
      "error", .failure e, rollbackDb r.db⟩

/-- The status-write trace left by a run whose process is interrupted by
an unhandled failure after `k + 1` status writes (the creation write
always precedes the task): the surviving committed writes followed by the
`"error"` written by the task's exception handler. -/
def interruptedWrites (inp : BuildInputs) (db0 : DbState) (k : Nat) :
    List String :=
  (("extracting" :: (buildCorpus inp db0).events.map (fun e => e.1)).take
    (k + 1)) ++ ["error"]

/-- Position of a status in the pipeline sequence; `"error"` sits past
every non-terminal status. -/
def statusRank (s : String) : Nat :=
  if s = "extracting" then 0
  else if s = "fetching" then 1
  else if s = "parsing" then 2
  else if s = "chunking" then 3
  else if s = "embedding" then 4
  else if s = "ready" then 5
  else if s = "error" then 6
  else 7

/-- Forward movement along the job-status sequence. -/
def statusLE (a b : String) : Prop :=
  statusRank a ≤ statusRank b

instance : DecidableRel statusLE :=
  fun a b => inferInstanceAs (Decidable (statusRank a ≤ statusRank b))

/-- Python `round(x, 3)`, modelled on the rationals: round `x` to the
nearest multiple of `1/1000`. -/
def round3 (x : ℚ) : ℚ :=
  (round (x * 1000) : ℤ) / 1000

/-- Python `str.strip()` over the code points: drop leading and trailing
whitespace. -/
def pyStripL (l : List Char) : List Char :=
  ((l.dropWhile Char.isWhitespace).reverse.dropWhile Char.isWhitespace).reverse

/-- The excerpt of a source record: the stripped first 200 characters of
the chunk's content, with `"..."` appended when the content is longer
than 200 characters. -/
def mkExcerpt (content : String) : String :=
  let core := pyStripL (content.toList.take 200)
  if 200 < content.toList.length then (core ++ "...".toList).asString
  else core.asString

/-- `section_labels.get(metadata.get('section', 'body'), 'Body')`. -/
def humanizeSection (s : String) : String :=
  if s = "title_abstract" then "Abstract"
  else if s = "body" then "Body"
  else "Body"

/-- A row of `papers_chunks` as read by `query_rag` (the columns its SQL
selects, with `paper_metadata` flattened). -/
structure ChunkRow where
  content : String
  article_id : String
  meta_title : String
  meta_section : String
  embedding : List ℚ

deriving instance DecidableEq for ChunkRow

/-- Ordering of `(row, distance)` pairs by the distance column — the sort
key of the SQL `ORDER BY embedding <=> :question_vector`. -/
def distLE (a b : ChunkRow × ℚ) : Prop :=
  a.2 ≤ b.2

instance : DecidableRel distLE :=
  fun a b => inferInstanceAs (Decidable (a.2 ≤ b.2))

instance : IsTotal (ChunkRow × ℚ) distLE :=
  ⟨fun a b => le_total a.2 b.2⟩

instance : IsTrans (ChunkRow × ℚ) distLE :=
  ⟨fun _ _ _ hab hbc => le_trans hab hbc⟩

/-- The nearest-neighbor search of `query_rag`: pair every persisted
chunk with its cosine distance to the question vector, order by ascending
distance, keep the first `k`. -/
def nnSearch (cosDist : List ℚ → List ℚ → ℚ) (qv : List ℚ)
    (rows : List ChunkRow) (k : Nat) : List (ChunkRow × ℚ) :=
  (List.insertionSort distLE
    (rows.map (fun r => (r, cosDist qv r.embedding)))).take k

/-- One record of the `sources` list returned by `query_rag`. -/
structure SourceRec where
  arxiv_id : String
  title : String
  «section» : String
  excerpt : String
  url : String
  score : ℚ

deriving instance DecidableEq for SourceRec

/-- The source record built for one retrieved row: the similarity is the
`1 - (embedding <=> :question_vector)` column, and the score rounds it to
3 decimal places. -/
def mkSource (rd : ChunkRow × ℚ) : SourceRec :=
  ⟨rd.1.article_id, rd.1.meta_title, humanizeSection rd.1.meta_section,
    mkExcerpt rd.1.content,
    "https://arxiv.org/abs/" ++ rd.1.article_id,
    round3 (1 - rd.2)⟩

/-- The context line for one retrieved row. -/
def contextPart (rd : ChunkRow × ℚ) : String :=
  "[arXiv:" ++ rd.1.article_id ++ "]: " ++ rd.1.content

/-- The value returned by `query_rag`, extended with the number of
generation-model invocations the call performed. -/
structure RagResult where
  answer : String
  sources : List SourceRec
  llmCalls : Nat

deriving instance DecidableEq for RagResult

/-- `query_rag`: embed the question, rank all persisted chunks by
ascending cosine distance, take the top `k`; on an empty result set
return the fixed no-information answer without calling the generation
model; otherwise assemble the tagged context, the source records, and the
generated answer.  The question embedder, the cosine-distance operator
and the generation model are oracle parameters. -/
def queryRag (embedQ : String → List ℚ) (cosDist : List ℚ → List ℚ → ℚ)
    (llm : String → String → String) (question : String)
    (rows : List ChunkRow) (k : Nat := 5) : RagResult :=
  let qv := embedQ question
  let results := nnSearch cosDist qv rows k
  if results.isEmpty then
    ⟨"No relevant information found in the corpus.", [], 0⟩
  else
    let context := String.intercalate "\n\n" (results.map contextPart)
    ⟨llm context question, results.map mkSource, 1⟩

/-- Per-batch description of the embedding stage following the spec's
words: for each batch, in index order, one batched embedding call, one
transactional commit, then one progress event
`("embedding", min(100·j, N), N)` after the j-th batch.  Stated
separately from `embedBatches` so that the loop's operation trace can be
compared against it. -/
def embeddingStageSpec (total : Nat) : List (List Doc) → Nat → List EmbedOp
  | [], _ => []
  | b :: bs, i =>
    .call (b.map (fun c => c.page_content)) :: .commit ::
      .progress ("embedding", min (i + 100) total, total) ::
      embeddingStageSpec total bs (i + 100)

/-! Concrete sample collaborators and inputs, used to instantiate the
theorems below at computable points. -/

/-- An embedding service that always succeeds, one vector per text. -/
def okOracle : List String → Except String (List (List ℚ)) :=
  fun ts => .ok (ts.map (fun _ => [0]))

/-- An embedding service that always fails. -/
def failOracle : List String → Except String (List (List ℚ)) :=
  fun _ => .error "boom"

/-- A pre-existing chunk row with the given article id. -/
def sampleRow (a : String) : PaperChunkRow :=
  ⟨"job0", a, "u", "c", [0], "t", "body", ""⟩

/-- A discovery-service record with the given entry id. -/
def sampleResult (e : String) : SearchResult :=
  ⟨e, "T", ["A"], "S", "u"⟩

/-- Inputs for a run that rediscovers one known paper (`dup`) and finds
one new one (`a0`). -/
def sampleInputs : BuildInputs :=
  ⟨"job1", .ok [sampleResult "p/a0", sampleResult "p/dup"],
    fun _ => none, fun _ => [], okOracle⟩

/-- A corpus that already contains the paper `dup`. -/
def sampleDb : DbState := ⟨[sampleRow "dup"], []⟩

/-- The same run as `sampleInputs` but with a failing embedding service. -/
def failInputs : BuildInputs :=
  ⟨"job1", .ok [sampleResult "p/a0", sampleResult "p/dup"],
    fun _ => none, fun _ => [], failOracle⟩

/-- Inputs whose discovery service returns the same new paper twice. -/
def dupInputs : BuildInputs :=
  ⟨"job1", .ok [sampleResult "p/a0", sampleResult "p/a0"],
    fun _ => none, fun _ => [], okOracle⟩

/-- Inputs with one candidate whose entry id ends in a slash, so that its
extracted arXiv id is the empty string. -/
def emptyIdInputs : BuildInputs :=
  ⟨"job1", .ok [sampleResult "p/"], fun _ => none, fun _ => [], okOracle⟩

/-- Eleven candidates of which the one at index 10 is already known. -/
def elevenResults : List SearchResult :=
  [sampleResult "p/a0", sampleResult "p/a1", sampleResult "p/a2",
   sampleResult "p/a3", sampleResult "p/a4", sampleResult "p/a5",
   sampleResult "p/a6", sampleResult "p/a7", sampleResult "p/a8",
   sampleResult "p/a9", sampleResult "p/dup"]

/-! Lemmas about the batching of the embedding loop. -/

theorem groupsOfGo_flatten {α : Type _} (n : Nat) (hn : 0 < n) :
    ∀ (fuel : Nat) (l : List α), l.length ≤ fuel →
      (groupsOfGo n fuel l).flatten = l := by
  intro fuel
  induction fuel with
  | zero =>
    intro l hl
    have : l = [] := List.length_eq_zero.mp (Nat.le_zero.mp hl)
    subst this
    rfl
  | succ fuel ih =>
    intro l hl
    cases l with
    | nil => rfl
    | cons x xs =>
      have hd : (List.drop n (x :: xs)).length ≤ fuel := by
        rw [List.length_drop]
        simp only [List.length_cons] at hl ⊢
        omega
      show (List.take n (x :: xs) :: groupsOfGo n fuel (List.drop n (x :: xs))).flatten
          = x :: xs
      rw [List.flatten_cons, ih _ hd, List.take_append_drop]

theorem groupsOfGo_length {α : Type _} (n : Nat) (hn : 0 < n) :
    ∀ (fuel : Nat) (l : List α), l.length ≤ fuel →
      (groupsOfGo n fuel l).length = (l.length + n - 1) / n := by
  intro fuel
  induction fuel with
  | zero =>
    intro l hl
    have : l = [] := List.length_eq_zero.mp (Nat.le_zero.mp hl)
    subst this
    show 0 = (0 + n - 1) / n
    rw [Nat.zero_add, Nat.div_eq_of_lt (by omega)]
  | succ fuel ih =>
    intro l hl
    cases l with
    | nil =>
      show 0 = (0 + n - 1) / n
      rw [Nat.zero_add, Nat.div_eq_of_lt (by omega)]
    | cons x xs =>
      have hd : (List.drop n (x :: xs)).length ≤ fuel := by
        rw [List.length_drop]
        simp only [List.length_cons] at hl ⊢
        omega
      show (List.take n (x :: xs) :: groupsOfGo n fuel (List.drop n (x :: xs))).length = _
      rw [List.length_cons, ih _ hd]
      rw [List.length_drop, List.length_cons]
      rcases Nat.le_total (xs.length + 1) n with h | h
      · have h1 : xs.length + 1 - n = 0 := by omega
        have h2 : xs.length + 1 + n - 1 = xs.length + n := by omega
        rw [h1, h2, Nat.zero_add, Nat.div_eq_of_lt (show n - 1 < n by omega),
          Nat.add_div_right _ hn, Nat.div_eq_of_lt (show xs.length < n by omega)]
      · have h1 : xs.length + 1 - n + n - 1 = xs.length := by omega
        have h2 : xs.length + 1 + n - 1 = xs.length + n := by omega
        rw [h1, h2, Nat.add_div_right _ hn]

theorem groupsOfGo_batch_le {α : Type _} (n : Nat) (hn : 0 < n) :
    ∀ (fuel : Nat) (l : List α), l.length ≤ fuel →
      ∀ b ∈ groupsOfGo n fuel l, b.length ≤ n := by
  intro fuel
  induction fuel with
  | zero =>
    intro l hl b hb
    have : l = [] := List.length_eq_zero.mp (Nat.le_zero.mp hl)
    subst this
    cases hb
  | succ fuel ih =>
    intro l hl b hb
    cases l with
    | nil => cases hb
    | cons x xs =>
      have hd : (List.drop n (x :: xs)).length ≤ fuel := by
        rw [List.length_drop]
        simp only [List.length_cons] at hl ⊢
        omega
      rcases hb with _ | hb
      · rw [List.length_take]
        exact min_le_left _ _
      · exact ih _ hd _ (by assumption)

theorem groupsOf_flatten {α : Type _} (n : Nat) (hn : 0 < n) (l : List α) :
    (groupsOf n l).flatten = l :=
  groupsOfGo_flatten n hn l.length l le_rfl

theorem groupsOf_length {α : Type _} (n : Nat) (hn : 0 < n) (l : List α) :
    (groupsOf n l).length = (l.length + n - 1) / n :=
  groupsOfGo_length n hn l.length l le_rfl

theorem groupsOf_batch_le {α : Type _} (n : Nat) (hn : 0 < n) (l : List α) :
    ∀ b ∈ groupsOf n l, b.length ≤ n :=
  groupsOfGo_batch_le n hn l.length l le_rfl

/-! Lemmas about the embedding loop. -/

theorem foldl_addRow (jobId : String) (db : DbState) (cvs : List (Doc × List ℚ)) :
    cvs.foldl (fun d cv => addRow d (mkRow jobId cv)) db =
      ⟨db.committed, db.pending ++ cvs.map (mkRow jobId)⟩ := by
  induction cvs generalizing db with
  | nil => simp
  | cons cv cvs ih =>
    rw [List.foldl_cons, ih]
    simp [addRow]

theorem embedBatches_ok_db (o : List String → Except String (List (List ℚ)))
    (j : String) (t : Nat) (hok : ∀ ts, ∃ vs, o ts = .ok vs) :
    ∀ (bs : List (List Doc)) (i : Nat) (db : DbState), db.pending = [] →
      (embedBatches o j t bs i db).2 =
        .ok ⟨db.committed ++ (bs.map (batchRows o j)).flatten, []⟩ := by
  intro bs
  induction bs with
  | nil =>
    intro i db hdb
    show Except.ok db = _
    rw [show db = ⟨db.committed, db.pending⟩ from rfl, hdb]
    simp
  | cons b bs ih =>
    intro i db hdb
    obtain ⟨vs, hvs⟩ := hok (b.map (fun c => c.page_content))
    unfold embedBatches
    simp only [hvs, foldl_addRow, commitDb, hdb, List.nil_append]
    rw [ih (i + 100) _ rfl]
    simp only [List.map_cons, List.flatten_cons, List.append_assoc]
    congr 3
    simp [batchRows, hvs]

theorem embedBatches_error_db (o : List String → Except String (List (List ℚ)))
    (j : String) (t : Nat) :
    ∀ (bs : List (List Doc)) (i : Nat) (db : DbState), db.pending = [] →
      ∀ e db', (embedBatches o j t bs i db).2 = .error (e, db') →
        db'.pending = [] ∧
        ∃ m, db'.committed =
          db.committed ++ ((bs.take m).map (batchRows o j)).flatten := by
  intro bs
  induction bs with
  | nil =>
    intro i db hdb e db' h
    cases h
  | cons b bs ih =>
    intro i db hdb e db' h
    unfold embedBatches at h
    rcases hvs : o (b.map (fun c => c.page_content)) with err | vs
    · simp only [hvs] at h
      obtain ⟨he, hd⟩ := Prod.mk.injEq .. ▸ (Except.error.injEq .. ▸ h)
      subst hd
      exact ⟨hdb, 0, by simp⟩
    · simp only [hvs, foldl_addRow, commitDb, hdb, List.nil_append] at h
      obtain ⟨hp, m, hm⟩ := ih (i + 100) _ rfl e db' h
      refine ⟨hp, m + 1, ?_⟩
      rw [hm]
      simp only [List.take_succ_cons, List.map_cons, List.flatten_cons,
        List.append_assoc]
      congr 2
      simp [batchRows, hvs]

theorem embedBatches_ops (o : List String → Except String (List (List ℚ)))
    (j : String) (t : Nat) (hok : ∀ ts, ∃ vs, o ts = .ok vs) :
    ∀ (bs : List (List Doc)) (i : Nat) (db : DbState),
      (embedBatches o j t bs i db).1 = embeddingStageSpec t bs i := by
  intro bs
  induction bs with
  | nil => intro i db; rfl
  | cons b bs ih =>
    intro i db
    obtain ⟨vs, hvs⟩ := hok (b.map (fun c => c.page_content))
    unfold embedBatches
    simp only [hvs]
    rw [ih]
    rfl

theorem opsEvents_cons_call (ts : List String) (ops : List EmbedOp) :
    opsEvents (.call ts :: ops) = opsEvents ops := rfl

theorem embeddingStageSpec_events (t : Nat) :
    ∀ (bs : List (List Doc)) (i : Nat),
      opsEvents (embeddingStageSpec t bs i) =
        (List.range bs.length).map
          (fun x => ("embedding", min (i + 100 * (x + 1)) t, t)) := by
  intro bs
  induction bs with
  | nil => intro i; rfl
  | cons b bs ih =>
    intro i
    show ("embedding", min (i + 100) t, t) :: opsEvents (embeddingStageSpec t bs (i + 100))
        = _
    rw [ih, List.length_cons, List.range_succ_eq_map, List.map_cons, List.map_map]
    refine congrArg₂ List.cons (by norm_num) ?_
    apply List.map_congr_left
    intro a ha
    show ("embedding", min (i + 100 + 100 * (a + 1)) t, t)
        = ("embedding", min (i + 100 * (Nat.succ a + 1)) t, t)
    have hx : i + 100 + 100 * (a + 1) = i + 100 * (Nat.succ a + 1) := by omega
    rw [hx]

theorem embedBatches_events_fst (o : List String → Except String (List (List ℚ)))
    (j : String) (t : Nat) :
    ∀ (bs : List (List Doc)) (i : Nat) (db : DbState),
      ∀ e ∈ opsEvents (embedBatches o j t bs i db).1, e.1 = "embedding" := by
  intro bs
  induction bs with
  | nil => intro i db e he; cases he
  | cons b bs ih =>
    intro i db e he
    unfold embedBatches at he
    rcases hvs : o (b.map (fun c => c.page_content)) with err | vs
    · simp only [hvs, opsEvents, List.filterMap] at he
      cases he
    · simp only [hvs] at he
      rw [show opsEvents (.call (b.map (fun c => c.page_content)) :: .commit ::
            .progress ("embedding", min (i + 100) t, t) ::
            (embedBatches o j t bs (i + 100)
              (commitDb ((b.zip vs).foldl (fun d cv => addRow d (mkRow j cv)) db))).1)
          = ("embedding", min (i + 100) t, t) ::
            opsEvents (embedBatches o j t bs (i + 100)
              (commitDb ((b.zip vs).foldl (fun d cv => addRow d (mkRow j cv)) db))).1
        from rfl] at he
      rcases he with _ | he'
      · rfl
      · exact ih (i + 100) _ e (by assumption)

theorem batchRows_mem (o : List String → Except String (List (List ℚ)))
    (j : String) (b : List Doc) (r : PaperChunkRow) (hr : r ∈ batchRows o j b) :
    ∃ c ∈ b, ∃ v, r = mkRow j (c, v) := by
  unfold batchRows at hr
  rcases h : o (b.map (fun c => c.page_content)) with err | vs
  · rw [h] at hr
    cases hr
  · rw [h] at hr
    obtain ⟨⟨c, v⟩, hcv, rfl⟩ := List.mem_map.mp hr
    exact ⟨c, (List.of_mem_zip hcv).1, v, rfl⟩

/-! Lemmas about the fetching, parsing and chunking loops. -/

theorem getExistingArticleIds_mem (rows : List PaperChunkRow) (a : String) :
    a ∈ getExistingArticleIds rows ↔
      a ≠ "" ∧ a ∈ rows.map (fun r => r.article_id) := by
  simp only [getExistingArticleIds, List.mem_dedup, List.mem_filter,
    decide_eq_true_eq]
  exact and_comm

theorem fetchLoop_papers (ex : List String) :
    ∀ (rs : List SearchResult) (i : Nat),
      (fetchLoop ex rs i).1 = rs.filterMap (fun r =>
        if entryArxivId r.entry_id ∈ ex then none else some (paperOf r)) := by
  intro rs
  induction rs with
  | nil => intro i; rfl
  | cons r rs ih =>
    intro i
    by_cases h : entryArxivId r.entry_id ∈ ex <;>
      simp [fetchLoop, h, ih (i + 1), List.filterMap_cons]

theorem fetchLoop_skipped (ex : List String) :
    ∀ (rs : List SearchResult) (i : Nat),
      (fetchLoop ex rs i).2.1 =
        rs.countP (fun r => decide (entryArxivId r.entry_id ∈ ex)) := by
  intro rs
  induction rs with
  | nil => intro i; rfl
  | cons r rs ih =>
    intro i
    by_cases h : entryArxivId r.entry_id ∈ ex <;>
      simp [fetchLoop, h, ih (i + 1), List.countP_cons]

theorem fetchLoop_events (ex : List String) :
    ∀ (rs : List SearchResult) (i : Nat),
      (fetchLoop ex rs i).2.2 = (rs.enumFrom i).filterMap (fun jr =>
        if entryArxivId jr.2.entry_id ∈ ex then none
        else if jr.1 % 10 = 0 then some ("fetching", jr.1, MAX_PAPERS)
        else none) := by
  intro rs
  induction rs with
  | nil => intro i; rfl
  | cons r rs ih =>
    intro i
    by_cases h : entryArxivId r.entry_id ∈ ex
    · simp [fetchLoop, h, ih (i + 1), List.enumFrom_cons, List.filterMap_cons]
    · by_cases h10 : i % 10 = 0 <;>
        simp [fetchLoop, h, h10, ih (i + 1), List.enumFrom_cons,
          List.filterMap_cons]

theorem fetchLoop_events_fst (ex : List String) :
    ∀ (rs : List SearchResult) (i : Nat),
      ∀ e ∈ (fetchLoop ex rs i).2.2, e.1 = "fetching" := by
  intro rs
  induction rs with
  | nil => intro i e he; cases he
  | cons r rs ih =>
    intro i e he
    by_cases h : entryArxivId r.entry_id ∈ ex
    · rw [show (fetchLoop ex (r :: rs) i).2.2 = (fetchLoop ex rs (i + 1)).2.2 by
        simp [fetchLoop, h]] at he
      exact ih (i + 1) e he
    · by_cases h10 : i % 10 = 0
      · rw [show (fetchLoop ex (r :: rs) i).2.2 =
            ("fetching", i, MAX_PAPERS) :: (fetchLoop ex rs (i + 1)).2.2 by
          simp [fetchLoop, h, h10]] at he
        rcases he with _ | he'
        · rfl
        · exact ih (i + 1) e (by assumption)
      · rw [show (fetchLoop ex (r :: rs) i).2.2 = (fetchLoop ex rs (i + 1)).2.2 by
          simp [fetchLoop, h, h10]] at he
        exact ih (i + 1) e he

theorem parseLoop_parsed (o : String → Option String) :
    ∀ (ps : List Paper) (i t : Nat),
      (parseLoop o ps i t).1 = ps.map (fun p => ⟨p, fullTextOf o p⟩) := by
  intro ps
  induction ps with
  | nil => intro i t; rfl
  | cons p ps ih =>
    intro i t
    by_cases h10 : i % 10 = 0 <;> simp [parseLoop, h10, ih (i + 1)]

theorem parseLoop_events_fst (o : String → Option String) :
    ∀ (ps : List Paper) (i t : Nat),
      ∀ e ∈ (parseLoop o ps i t).2, e.1 = "parsing" := by
  intro ps
  induction ps with
  | nil => intro i t e he; cases he
  | cons p ps ih =>
    intro i t e he
    by_cases h10 : i % 10 = 0
    · rw [show (parseLoop o (p :: ps) i t).2 =
          ("parsing", i, t) :: (parseLoop o ps (i + 1) t).2 by
        simp [parseLoop, h10]] at he
      rcases he with _ | he'
      · rfl
      · exact ih (i + 1) t e (by assumption)
    · rw [show (parseLoop o (p :: ps) i t).2 = (parseLoop o ps (i + 1) t).2 by
        simp [parseLoop, h10]] at he
      exact ih (i + 1) t e he

theorem chunkLoop_chunks (sp : String → List String) :
    ∀ (pps : List ParsedPaper) (i t : Nat),
      (chunkLoop sp pps i t).1 = (pps.map (chunkPaper sp)).flatten := by
  intro pps
  induction pps with
  | nil => intro i t; rfl
  | cons pp pps ih =>
    intro i t
    by_cases h20 : i % 20 = 0 <;> simp [chunkLoop, h20, ih (i + 1)]

theorem chunkLoop_events_fst (sp : String → List String) :
    ∀ (pps : List ParsedPaper) (i t : Nat),
      ∀ e ∈ (chunkLoop sp pps i t).2, e.1 = "chunking" := by
  intro pps
  induction pps with
  | nil => intro i t e he; cases he
  | cons pp pps ih =>
    intro i t e he
    by_cases h20 : i % 20 = 0
    · rw [show (chunkLoop sp (pp :: pps) i t).2 =
          ("chunking", i, t) :: (chunkLoop sp pps (i + 1) t).2 by
        simp [chunkLoop, h20]] at he
      rcases he with _ | he'
      · rfl
      · exact ih (i + 1) t e (by assumption)
    · rw [show (chunkLoop sp (pp :: pps) i t).2 = (chunkLoop sp pps (i + 1) t).2 by
        simp [chunkLoop, h20]] at he
      exact ih (i + 1) t e he

theorem chunkPaper_ids (sp : String → List String) (pp : ParsedPaper) :
    ∀ c ∈ chunkPaper sp pp, c.arxiv_id = pp.paper.arxiv_id := by
  intro c hc
  rcases hc with _ | hc'
  · rfl
  · obtain ⟨t, _, rfl⟩ := List.mem_map.mp (by assumption)
    rfl

theorem chunkPaper_countP_ge (sp : String → List String) (pp : ParsedPaper)
    (a : String) (ha : pp.paper.arxiv_id = a) :
    1 ≤ (chunkPaper sp pp).countP (fun c => decide (c.arxiv_id = a)) := by
  unfold chunkPaper
  rw [List.countP_cons]
  simp [ha]

/-! Lemmas about the status-write trace of a run. -/

theorem pairwise_replicate_self {α : Type _} {R : α → α → Prop} {a : α}
    (h : R a a) : ∀ n, List.Pairwise R (List.replicate n a) := by
  intro n
  induction n with
  | zero => exact List.Pairwise.nil
  | succ n ih =>
    rw [List.replicate_succ]
    exact List.Pairwise.cons (fun b hb => by rw [List.eq_of_mem_replicate hb]; exact h) ih

theorem pairwise_statusLE_append {l₁ l₂ : List String} (k : Nat)
    (h₁ : List.Pairwise statusLE l₁) (h₂ : List.Pairwise statusLE l₂)
    (hl₁ : ∀ s ∈ l₁, statusRank s ≤ k) (hl₂ : ∀ s ∈ l₂, k ≤ statusRank s) :
    List.Pairwise statusLE (l₁ ++ l₂) :=
  List.pairwise_append.mpr
    ⟨h₁, h₂, fun x hx y hy => le_trans (hl₁ x hx) (hl₂ y hy)⟩

theorem events_shape (inp : BuildInputs) (db0 : DbState) :
    ∃ a b c d, 0 < a ∧ (buildCorpus inp db0).events.map Prod.fst =
      List.replicate a "fetching" ++ List.replicate b "parsing" ++
        List.replicate c "chunking" ++ List.replicate d "embedding" := by
  rcases hso : inp.searchOutcome with e | rs
  · refine ⟨1, 0, 0, 0, Nat.one_pos, ?_⟩
    unfold buildCorpus
    rw [hso]
    rfl
  · have hev : (buildCorpus inp db0).events = pipeEvents inp db0 rs := by
      unfold buildCorpus
      rw [hso]
      rcases h2 : (pipeEmb inp db0 rs).2 with ed | d <;> simp [h2]
    obtain ⟨n1, s1⟩ : ∃ n, ((pipeFetched db0 rs).2.2).map Prod.fst =
        List.replicate n "fetching" := by
      refine ⟨_, List.eq_replicate_of_mem ?_⟩
      intro s hs
      obtain ⟨e, he, rfl⟩ := List.mem_map.mp hs
      exact fetchLoop_events_fst _ rs 0 e he
    obtain ⟨n2, s2⟩ : ∃ n, ((pipeParsed inp db0 rs).2).map Prod.fst =
        List.replicate n "parsing" := by
      refine ⟨_, List.eq_replicate_of_mem ?_⟩
      intro s hs
      obtain ⟨e, he, rfl⟩ := List.mem_map.mp hs
      exact parseLoop_events_fst _ _ 0 _ e he
    obtain ⟨n3, s3⟩ : ∃ n, ((pipeChunked inp db0 rs).2).map Prod.fst =
        List.replicate n "chunking" := by
      refine ⟨_, List.eq_replicate_of_mem ?_⟩
      intro s hs
      obtain ⟨e, he, rfl⟩ := List.mem_map.mp hs
      exact chunkLoop_events_fst _ _ 0 _ e he
    obtain ⟨n4, s4⟩ : ∃ n, (opsEvents (pipeEmb inp db0 rs).1).map Prod.fst =
        List.replicate n "embedding" := by
      refine ⟨_, List.eq_replicate_of_mem ?_⟩
      intro s hs
      obtain ⟨e, he, rfl⟩ := List.mem_map.mp hs
      exact embedBatches_events_fst _ _ _ _ 0 _ e he
    refine ⟨n1 + 1, n2 + 1, n3 + 1, n4 + 1, Nat.succ_pos _, ?_⟩
    rw [hev]
    unfold pipeEvents
    simp only [List.map_append, List.map_cons, s1, s2, s3, s4]
    simp only [← List.replicate_succ, List.append_assoc]

theorem events_fst_cases (inp : BuildInputs) (db0 : DbState) :
    ∀ s ∈ (buildCorpus inp db0).events.map Prod.fst,
      s = "fetching" ∨ s = "parsing" ∨ s = "chunking" ∨ s = "embedding" := by
  obtain ⟨a, b, c, d, _, hsh⟩ := events_shape inp db0
  rw [hsh]
  intro s hs
  simp only [List.mem_append, List.mem_replicate] at hs
  rcases hs with ((⟨_, h⟩ | ⟨_, h⟩) | ⟨_, h⟩) | ⟨_, h⟩ <;> simp [h]

theorem statusWrites_eq (inp : BuildInputs) (db0 : DbState) :
    (buildCorpusTask inp db0).statusWrites =
      "extracting" :: (buildCorpus inp db0).events.map Prod.fst ++
        [if (buildCorpus inp db0).err = none then "ready" else "error"] := by
  unfold buildCorpusTask
  rcases h : (buildCorpus inp db0).err with _ | e <;> simp [h]

theorem statusWrites_pairwise (inp : BuildInputs) (db0 : DbState) :
    List.Pairwise statusLE (buildCorpusTask inp db0).statusWrites := by
  rw [statusWrites_eq]
  obtain ⟨a, b, c, d, _, hsh⟩ := events_shape inp db0
  have hblocks : List.Pairwise statusLE ((buildCorpus inp db0).events.map Prod.fst) := by
    rw [hsh]
    have pwA : List.Pairwise statusLE (List.replicate a "fetching") :=
      pairwise_replicate_self (show statusLE "fetching" "fetching" from le_rfl) a
    have pwB : List.Pairwise statusLE (List.replicate b "parsing") :=
      pairwise_replicate_self (show statusLE "parsing" "parsing" from le_rfl) b
    have pwC : List.Pairwise statusLE (List.replicate c "chunking") :=
      pairwise_replicate_self (show statusLE "chunking" "chunking" from le_rfl) c
    have pwD : List.Pairwise statusLE (List.replicate d "embedding") :=
      pairwise_replicate_self (show statusLE "embedding" "embedding" from le_rfl) d
    have pwCD : List.Pairwise statusLE
        (List.replicate c "chunking" ++ List.replicate d "embedding") := by
      refine pairwise_statusLE_append 4 pwC pwD ?_ ?_ <;>
        · intro s hs
          rw [List.eq_of_mem_replicate hs]
          decide
    have pwBCD : List.Pairwise statusLE (List.replicate b "parsing" ++
        (List.replicate c "chunking" ++ List.replicate d "embedding")) := by
      refine pairwise_statusLE_append 3 pwB pwCD ?_ ?_
      · intro s hs
        rw [List.eq_of_mem_replicate hs]
        decide
      · intro s hs
        rcases List.mem_append.mp hs with h | h <;>
          · rw [List.eq_of_mem_replicate h]
            decide
    have pwABCD : List.Pairwise statusLE (List.replicate a "fetching" ++
        (List.replicate b "parsing" ++
          (List.replicate c "chunking" ++ List.replicate d "embedding"))) := by
      refine pairwise_statusLE_append 2 pwA pwBCD ?_ ?_
      · intro s hs
        rw [List.eq_of_mem_replicate hs]
        decide
      · intro s hs
        rcases List.mem_append.mp hs with h | h
        · rw [List.eq_of_mem_replicate h]
          decide
        · rcases List.mem_append.mp h with h' | h' <;>
            · rw [List.eq_of_mem_replicate h']
              decide
    simpa [List.append_assoc] using pwABCD
  have hbound : ∀ s ∈ (buildCorpus inp db0).events.map Prod.fst, statusRank s ≤ 4 := by
    intro s hs
    rcases events_fst_cases inp db0 s hs with h | h | h | h <;>
      · rw [h]
        decide
  have hfin : 5 ≤ statusRank
      (if (buildCorpus inp db0).err = none then "ready" else "error") := by
    rcases h : (buildCorpus inp db0).err with _ | e <;> simp [h] <;> decide
  refine List.Pairwise.cons ?_ ?_
  · intro y _
    show statusRank "extracting" ≤ statusRank y
    exact Nat.zero_le _
  · exact pairwise_statusLE_append 5 hblocks (List.pairwise_singleton _ _)
      (fun s hs => le_trans (hbound s hs) (by norm_num))
      (by intro s hs; rw [List.mem_singleton.mp hs]; exact hfin)

theorem pre_error_statuses (inp : BuildInputs) (db0 : DbState) :
    ∀ s ∈ "extracting" :: (buildCorpus inp db0).events.map Prod.fst,
      statusRank s ≤ 4 ∧ s ≠ "ready" ∧ s ≠ "error" := by
  intro s hs
  rcases hs with _ | h
  · exact ⟨by decide, by decide, by decide⟩
  · rcases events_fst_cases inp db0 s (by assumption) with h | h | h | h <;>
      · rw [h]
        exact ⟨by decide, by decide, by decide⟩

theorem pre_pairwise (inp : BuildInputs) (db0 : DbState) :
    List.Pairwise statusLE
      ("extracting" :: (buildCorpus inp db0).events.map Prod.fst) := by
  have h := statusWrites_pairwise inp db0
  rw [statusWrites_eq] at h
  exact h.sublist (List.sublist_append_left _ _)

theorem statusWrites_dropLast_mem (inp : BuildInputs) (db0 : DbState) :
    ∀ s ∈ (buildCorpusTask inp db0).statusWrites.dropLast,
      s ≠ "ready" ∧ s ≠ "error" := by
  rw [statusWrites_eq, List.dropLast_concat]
  intro s hs
  exact (pre_error_statuses inp db0 s hs).2

theorem statusWrites_getLast (inp : BuildInputs) (db0 : DbState) :
    (buildCorpusTask inp db0).statusWrites.getLast? =
      some (buildCorpusTask inp db0).finalStatus := by
  unfold buildCorpusTask
  rcases h : (buildCorpus inp db0).err with _ | e <;>
    · simp only [h]
      exact List.getLast?_concat _

theorem interruptedWrites_pairwise (inp : BuildInputs) (db0 : DbState) (k : Nat) :
    List.Pairwise statusLE (interruptedWrites inp db0 k) := by
  unfold interruptedWrites
  refine pairwise_statusLE_append 5
    ((pre_pairwise inp db0).sublist (List.take_sublist _ _))
    (List.pairwise_singleton _ _) ?_ ?_
  · intro s hs
    have hm := List.take_subset _ _ hs
    exact le_trans (pre_error_statuses inp db0 s hm).1 (by norm_num)
  · intro s hs
    rw [List.mem_singleton.mp hs]
    decide

theorem interruptedWrites_dropLast_mem (inp : BuildInputs) (db0 : DbState)
    (k : Nat) :
    ∀ s ∈ (interruptedWrites inp db0 k).dropLast, s ≠ "ready" ∧ s ≠ "error" := by
  unfold interruptedWrites
  rw [List.dropLast_concat]
  intro s hs
  exact (pre_error_statuses inp db0 s (List.take_subset _ _ hs)).2

/-! Projections of `buildCorpus` and run-level characterizations. -/

/-- The session state carried by the embedding stage's outcome. -/
def embResultDb : Except (String × DbState) DbState → DbState
  | .ok d => d
  | .error ed => ed.2

theorem buildCorpus_fields_ok (inp : BuildInputs) (db0 : DbState)
    (rs : List SearchResult) (hso : inp.searchOutcome = .ok rs) :
    (buildCorpus inp db0).papers = pipePapers db0 rs ∧
    (buildCorpus inp db0).skipped = (pipeFetched db0 rs).2.1 ∧
    (buildCorpus inp db0).allChunks = pipeChunks inp db0 rs ∧
    (buildCorpus inp db0).embedOps = (pipeEmb inp db0 rs).1 ∧
    (buildCorpus inp db0).db = embResultDb (pipeEmb inp db0 rs).2 := by
  unfold buildCorpus
  rw [hso]
  rcases h2 : (pipeEmb inp db0 rs).2 with ed | d <;> simp [h2, embResultDb]

theorem buildCorpus_err_ok (inp : BuildInputs) (db0 : DbState)
    (rs : List SearchResult) (hso : inp.searchOutcome = .ok rs) (db1 : DbState)
    (h : (pipeEmb inp db0 rs).2 = .ok db1) :
    (buildCorpus inp db0).err = none ∧ (buildCorpus inp db0).db = db1 := by
  unfold buildCorpus
  rw [hso]
  simp [h]

theorem buildCorpus_err_error (inp : BuildInputs) (db0 : DbState)
    (rs : List SearchResult) (hso : inp.searchOutcome = .ok rs)
    (e : String) (db1 : DbState)
    (h : (pipeEmb inp db0 rs).2 = .error (e, db1)) :
    (buildCorpus inp db0).err = some e ∧ (buildCorpus inp db0).db = db1 := by
  unfold buildCorpus
  rw [hso]
  simp [h]

theorem buildCorpus_discovery_error (inp : BuildInputs) (db0 : DbState)
    (e : String) (hso : inp.searchOutcome = .error e) :
    buildCorpus inp db0 =
      ⟨[("fetching", 0, MAX_PAPERS)], [], db0, [], 0, [], some e⟩ := by
  unfold buildCorpus
  rw [hso]

theorem buildCorpusTask_of_err (inp : BuildInputs) (db0 : DbState) (msg : String)
    (h : (buildCorpus inp db0).err = some msg) :
    (buildCorpusTask inp db0).finalStatus = "error" ∧
    (buildCorpusTask inp db0).finalProgress = .failure msg ∧
    (buildCorpusTask inp db0).db = rollbackDb (buildCorpus inp db0).db := by
  unfold buildCorpusTask
  simp [h]

theorem buildCorpusTask_of_ok (inp : BuildInputs) (db0 : DbState)
    (h : (buildCorpus inp db0).err = none) :
    (buildCorpusTask inp db0).finalStatus = "ready" ∧
    (buildCorpusTask inp db0).db = commitDb (buildCorpus inp db0).db := by
  unfold buildCorpusTask
  simp [h]

theorem embedBatches_committed (o : List String → Except String (List (List ℚ)))
    (j : String) (t : Nat) :
    ∀ (bs : List (List Doc)) (i : Nat) (db : DbState), db.pending = [] →
      (embResultDb (embedBatches o j t bs i db).2).pending = [] ∧
      ∃ m, (embResultDb (embedBatches o j t bs i db).2).committed =
        db.committed ++ ((bs.take m).map (batchRows o j)).flatten := by
  intro bs
  induction bs with
  | nil =>
    intro i db hdb
    exact ⟨hdb, 0, by simp [embedBatches, embResultDb]⟩
  | cons b bs ih =>
    intro i db hdb
    unfold embedBatches
    rcases hvs : o (b.map (fun c => c.page_content)) with err | vs
    · simp only [hvs]
      exact ⟨hdb, 0, by simp [embResultDb]⟩
    · simp only [hvs, foldl_addRow, commitDb, hdb, List.nil_append]
      obtain ⟨hp, m, hm⟩ :=
        ih (i + 100) ⟨db.committed ++ (b.zip vs).map (mkRow j), []⟩ rfl
      refine ⟨hp, m + 1, ?_⟩
      rw [hm]
      simp only [List.take_succ_cons, List.map_cons, List.flatten_cons,
        List.append_assoc]
      congr 2
      simp [batchRows, hvs]

theorem batchRows_ids (o : List String → Except String (List (List ℚ)))
    (j : String) (b : List Doc) (vs : List (List ℚ))
    (hvs : o (b.map (fun c => c.page_content)) = .ok vs)
    (hlen : b.length ≤ vs.length) :
    (batchRows o j b).map (fun r => r.article_id) =
      b.map (fun c => c.arxiv_id) := by
  unfold batchRows
  rw [hvs]
  rw [List.map_map]
  have : ((fun r => r.article_id) ∘ mkRow j) = fun cv : Doc × List ℚ => cv.1.arxiv_id :=
    rfl
  rw [this, show (fun cv : Doc × List ℚ => cv.1.arxiv_id) =
    (fun c : Doc => c.arxiv_id) ∘ Prod.fst from rfl, ← List.map_map,
    List.map_fst_zip _ _ hlen]

theorem run_new_ids (inp : BuildInputs) (db0 : DbState) (rs : List SearchResult)
    (hso : inp.searchOutcome = .ok rs) (h0 : db0.pending = [])
    (hok : ∀ ts, ∃ vs, inp.embedOracle ts = .ok vs ∧ ts.length ≤ vs.length) :
    (buildCorpus inp db0).db.committed.map (fun r => r.article_id) =
      db0.committed.map (fun r => r.article_id) ++
        (pipeChunks inp db0 rs).map (fun c => c.arxiv_id) := by
  have hok' : ∀ ts, ∃ vs, inp.embedOracle ts = .ok vs :=
    fun ts => ⟨(hok ts).choose, (hok ts).choose_spec.1⟩
  have hemb := embedBatches_ok_db inp.embedOracle inp.jobId
    (pipeChunks inp db0 rs).length hok' (groupsOf 100 (pipeChunks inp db0 rs))
    0 db0 h0
  have hdb := (buildCorpus_err_ok inp db0 rs hso _ hemb).2
  rw [hdb]
  simp only [List.map_append]
  congr 1
  rw [List.map_flatten, List.map_map]
  have hbatch : ∀ b ∈ groupsOf 100 (pipeChunks inp db0 rs),
      ((List.map (fun r => r.article_id)) ∘ batchRows inp.embedOracle inp.jobId) b
        = b.map (fun c => c.arxiv_id) := by
    intro b _
    obtain ⟨vs, hvs, hlen⟩ := hok (b.map (fun c => c.page_content))
    have := batchRows_ids inp.embedOracle inp.jobId b vs hvs
      (by simpa using hlen)
    simpa using this
  rw [List.map_congr_left hbatch, ← List.map_flatten,
    groupsOf_flatten 100 (by norm_num)]

theorem fetchLoop_countP (ex : List String) (a : String) (ha : a ∉ ex) :
    ∀ (rs : List SearchResult) (i : Nat),
      ((fetchLoop ex rs i).1).countP (fun p => decide (p.arxiv_id = a)) =
        rs.countP (fun r => decide (entryArxivId r.entry_id = a)) := by
  intro rs
  induction rs with
  | nil => intro i; rfl
  | cons r rs ih =>
    intro i
    by_cases h : entryArxivId r.entry_id ∈ ex
    · have hne : ¬ entryArxivId r.entry_id = a := fun hEq => ha (hEq ▸ h)
      simp [fetchLoop, h, ih (i + 1), List.countP_cons, hne]
    · simp [fetchLoop, h, ih (i + 1), List.countP_cons, paperOf]

theorem chunks_countP_ge (sp : String → List String) (a : String) :
    ∀ pps : List ParsedPaper,
      pps.countP (fun pp => decide (pp.paper.arxiv_id = a)) ≤
        ((pps.map (chunkPaper sp)).flatten).countP
          (fun c => decide (c.arxiv_id = a)) := by
  intro pps
  induction pps with
  | nil => simp
  | cons pp pps ih =>
    simp only [List.map_cons, List.flatten_cons, List.countP_append,
      List.countP_cons]
    by_cases h : pp.paper.arxiv_id = a
    · have h1 := chunkPaper_countP_ge sp pp a h
      simp [h] at ih ⊢
      omega
    · simp [h] at ih ⊢
      omega

theorem run_db_pending (inp : BuildInputs) (db0 : DbState)
    (h0 : db0.pending = []) : (buildCorpus inp db0).db.pending = [] := by
  rcases hso : inp.searchOutcome with e | rs
  · rw [buildCorpus_discovery_error inp db0 e hso]
    exact h0
  · rw [(buildCorpus_fields_ok inp db0 rs hso).2.2.2.2]
    exact (embedBatches_committed inp.embedOracle inp.jobId
      (pipeChunks inp db0 rs).length (groupsOf 100 (pipeChunks inp db0 rs))
      0 db0 h0).1

theorem task_db_committed (inp : BuildInputs) (db0 : DbState)
    (h0 : db0.pending = []) :
    (buildCorpusTask inp db0).db.committed =
      (buildCorpus inp db0).db.committed := by
  unfold buildCorpusTask
  rcases h : (buildCorpus inp db0).err with _ | e <;>
    simp [h, commitDb, rollbackDb, run_db_pending inp db0 h0]

theorem run_committed_shape (inp : BuildInputs) (db0 : DbState)
    (h0 : db0.pending = []) :
    (buildCorpus inp db0).db.committed = db0.committed ∨
    ∃ rs, inp.searchOutcome = .ok rs ∧
      ∃ m, (buildCorpus inp db0).db.committed = db0.committed ++
        (((groupsOf 100 (pipeChunks inp db0 rs)).take m).map
          (batchRows inp.embedOracle inp.jobId)).flatten := by
  rcases hso : inp.searchOutcome with e | rs
  · left
    rw [buildCorpus_discovery_error inp db0 e hso]
  · right
    refine ⟨rs, rfl, ?_⟩
    rw [(buildCorpus_fields_ok inp db0 rs hso).2.2.2.2]
    exact (embedBatches_committed inp.embedOracle inp.jobId
      (pipeChunks inp db0 rs).length (groupsOf 100 (pipeChunks inp db0 rs))
      0 db0 h0).2

theorem pipeChunks_ids (inp : BuildInputs) (db0 : DbState)
    (rs : List SearchResult) :
    ∀ c ∈ pipeChunks inp db0 rs, ∃ p ∈ pipePapers db0 rs,
      c.arxiv_id = p.arxiv_id := by
  intro c hc
  unfold pipeChunks pipeChunked at hc
  rw [chunkLoop_chunks] at hc
  obtain ⟨l, hl, hcl⟩ := List.mem_flatten.mp hc
  obtain ⟨pp, hpp, rfl⟩ := List.mem_map.mp hl
  have hid := chunkPaper_ids _ pp c hcl
  unfold pipeParsed at hpp
  rw [parseLoop_parsed] at hpp
  obtain ⟨p, hp, rfl⟩ := List.mem_map.mp hpp
  exact ⟨p, hp, hid⟩

theorem pipePapers_not_existing (db0 : DbState) (rs : List SearchResult) :
    ∀ p ∈ pipePapers db0 rs,
      p.arxiv_id ∉ getExistingArticleIds db0.committed := by
  intro p hp
  unfold pipePapers pipeFetched at hp
  rw [fetchLoop_papers] at hp
  obtain ⟨r, _, hpr⟩ := List.mem_filterMap.mp hp
  by_cases h : entryArxivId r.entry_id ∈ getExistingArticleIds db0.committed
  · simp [h] at hpr
  · simp only [h, if_false] at hpr
    obtain rfl := Option.some.injEq .. ▸ hpr
    exact h

theorem run_no_insert_of_existing (inp : BuildInputs) (db0 : DbState)
    (h0 : db0.pending = []) :
    ∀ r ∈ (buildCorpusTask inp db0).db.committed,
      r ∈ db0.committed ∨
        r.article_id ∉ getExistingArticleIds db0.committed := by
  intro r hr
  rw [task_db_committed inp db0 h0] at hr
  rcases run_committed_shape inp db0 h0 with h | ⟨rs, hso, m, h⟩
  · rw [h] at hr
    exact Or.inl hr
  · rw [h] at hr
    rcases List.mem_append.mp hr with h1 | h1
    · exact Or.inl h1
    · right
      obtain ⟨l, hl, hrl⟩ := List.mem_flatten.mp h1
      obtain ⟨b, hb, rfl⟩ := List.mem_map.mp hl
      obtain ⟨c, hc, v, rfl⟩ := batchRows_mem _ _ _ _ hrl
      have hbg : b ∈ groupsOf 100 (pipeChunks inp db0 rs) :=
        List.mem_of_mem_take hb
      have hcb : c ∈ pipeChunks inp db0 rs := by
        rw [← groupsOf_flatten 100 (by norm_num) (pipeChunks inp db0 rs)]
        exact List.mem_flatten.mpr ⟨b, hbg, hc⟩
      obtain ⟨p, hp, hid⟩ := pipeChunks_ids inp db0 rs c hcb
      show c.arxiv_id ∉ getExistingArticleIds db0.committed
      rw [hid]
      exact pipePapers_not_existing db0 rs p hp

/-! Lemmas about the retrieval engine. -/

theorem round3_mono {x y : ℚ} (h : x ≤ y) : round3 x ≤ round3 y := by
  unfold round3
  have h1 : x * 1000 + 1 / 2 ≤ y * 1000 + 1 / 2 := by linarith
  have h2 := Int.floor_le_floor h1
  rw [round_eq, round_eq]
  exact div_le_div_of_nonneg_right (by exact_mod_cast h2) (by norm_num)

theorem nnSearch_pairwise (cosDist : List ℚ → List ℚ → ℚ) (qv : List ℚ)
    (rows : List ChunkRow) (k : Nat) :
    List.Pairwise distLE (nnSearch cosDist qv rows k) := by
  unfold nnSearch
  exact (List.sorted_insertionSort distLE _).sublist (List.take_sublist _ _)

theorem nnSearch_length_le (cosDist : List ℚ → List ℚ → ℚ) (qv : List ℚ)
    (rows : List ChunkRow) (k : Nat) :
    (nnSearch cosDist qv rows k).length ≤ k := by
  unfold nnSearch
  simpa using List.length_take_le k _

theorem nnSearch_nil (cosDist : List ℚ → List ℚ → ℚ) (qv : List ℚ) (k : Nat) :
    nnSearch cosDist qv [] k = [] := by
  simp [nnSearch]

theorem queryRag_sources (embedQ : String → List ℚ)
    (cosDist : List ℚ → List ℚ → ℚ) (llm : String → String → String)
    (question : String) (rows : List ChunkRow) (k : Nat) :
    (queryRag embedQ cosDist llm question rows k).sources =
      (nnSearch cosDist (embedQ question) rows k).map mkSource := by
  unfold queryRag
  by_cases h : (nnSearch cosDist (embedQ question) rows k).isEmpty
  · rw [List.isEmpty_iff] at h
    simp [h]
  · simp [h]

theorem queryRag_of_empty (embedQ : String → List ℚ)
    (cosDist : List ℚ → List ℚ → ℚ) (llm : String → String → String)
    (question : String) (rows : List ChunkRow) (k : Nat)
    (h : nnSearch cosDist (embedQ question) rows k = []) :
    queryRag embedQ cosDist llm question rows k =
      ⟨"No relevant information found in the corpus.", [], 0⟩ := by
  unfold queryRag
  simp [h]

theorem pyStripL_isInfix (l : List Char) : pyStripL l <:+: l := by
  unfold pyStripL
  have h1 : l.dropWhile Char.isWhitespace <:+ l := List.dropWhile_suffix _
  have h2 : ((l.dropWhile Char.isWhitespace).reverse.dropWhile
      Char.isWhitespace).reverse <+: l.dropWhile Char.isWhitespace := by
    rw [← List.reverse_suffix]
    simpa using
      List.dropWhile_suffix (l := (l.dropWhile Char.isWhitespace).reverse)
        (p := Char.isWhitespace)
  exact h2.isInfix.trans h1.isInfix

theorem pyStripL_length_le (l : List Char) : (pyStripL l).length ≤ l.length := by
  unfold pyStripL
  calc ((l.dropWhile Char.isWhitespace).reverse.dropWhile
        Char.isWhitespace).reverse.length
      = ((l.dropWhile Char.isWhitespace).reverse.dropWhile
          Char.isWhitespace).length := List.length_reverse _
    _ ≤ (l.dropWhile Char.isWhitespace).reverse.length :=
        (List.dropWhile_sublist _).length_le
    _ = (l.dropWhile Char.isWhitespace).length := List.length_reverse _
    _ ≤ l.length := (List.dropWhile_sublist _).length_le

theorem mkExcerpt_toList (content : String) :
    (mkExcerpt content).toList =
      pyStripL (content.toList.take 200) ++
        (if 200 < content.toList.length then "...".toList else []) := by
  unfold mkExcerpt
  by_cases h : 200 < content.toList.length
  · rw [if_pos h, if_pos h]
    rfl
  · rw [if_neg h, if_neg h]
    exact (List.append_nil _).symm

theorem mkExcerpt_length_le (content : String) :
    (mkExcerpt content).toList.length ≤ 203 := by
  rw [mkExcerpt_toList, List.length_append]
  have h1 : (pyStripL (content.toList.take 200)).length ≤ 200 := by
    calc (pyStripL (content.toList.take 200)).length
        ≤ (content.toList.take 200).length := pyStripL_length_le _
      _ ≤ 200 := by simpa using List.length_take_le 200 content.toList
  by_cases h : 200 < content.toList.length
  · rw [if_pos h]
    have h3 : ("...".toList).length = 3 := rfl
    omega
  · rw [if_neg h]
    have h3 : ([] : List Char).length = 0 := rfl
    omega

theorem mkExcerpt_ellipsis (content : String)
    (h : 200 < content.toList.length) :
    "...".toList <:+ (mkExcerpt content).toList := by
  rw [mkExcerpt_toList]
  rw [if_pos h]
  exact List.suffix_append _ _

theorem mkExcerpt_core_infix (content : String) :
    pyStripL (content.toList.take 200) <:+: content.toList :=
  (pyStripL_isInfix _).trans ( List.take_prefix _ _).isInfix

/-! Additional concrete inputs for witnesses and counterexamples. -/

/-- A 500-character extracted text (no nulls, no whitespace). -/
def raw500 : String := String.mk (List.replicate 500 'a')

/-- A 501-character extracted text. -/
def raw501 : String := String.mk (List.replicate 501 'a')

/-- A chunk content longer than 200 characters. -/
def longContent : String := String.mk (List.replicate 201 'b')

/-- A chunk row whose content starts with whitespace and ends in dots. -/
def rowStrip : ChunkRow := ⟨" a...", "x", "T", "title_abstract", [0]⟩

/-- A sample chunk document. -/
def sampleDoc : Doc := ⟨"txt", "a0", "T", "body", "A", "u"⟩

/-- An empty corpus session. -/
def emptyDb : DbState := ⟨[], []⟩

/-! Claim theorems. -/

/-- Claim C1, counterexample: the claim as stated fails for the empty
article id.  With a chunk row whose `article_id` is the empty string
already committed, a run whose discovery result has an entry id ending in
a slash extracts the empty arXiv id, does not skip it (`skipped = 0`),
and inserts one more chunk row with that same already-present
`article_id`. -/
theorem c1_counterexample :
    "" ∈ (DbState.mk [sampleRow ""] []).committed.map (fun r => r.article_id) ∧
    (buildCorpus emptyIdInputs ⟨[sampleRow ""], []⟩).skipped = 0 ∧
    (buildCorpusTask emptyIdInputs ⟨[sampleRow ""], []⟩).db.committed.map
      (fun r => r.article_id) = ["", ""] := by
  decide

/-- Claim C1 (amended to non-empty article ids): the deduplication set is
exactly the set of distinct non-empty `article_id` values committed at
run start; every candidate whose id is in that set is counted as skipped;
no kept paper, and no chunk row the run commits, carries an id from that
set. -/
theorem c1_dedup_snapshot (inp : BuildInputs) (db0 : DbState)
    (rs : List SearchResult) (h0 : db0.pending = [])
    (hso : inp.searchOutcome = .ok rs) :
    (∀ a, a ∈ getExistingArticleIds db0.committed ↔
      a ≠ "" ∧ a ∈ db0.committed.map (fun r => r.article_id)) ∧
    (buildCorpus inp db0).skipped = rs.countP (fun r =>
      decide (entryArxivId r.entry_id ∈ getExistingArticleIds db0.committed)) ∧
    (∀ p ∈ (buildCorpus inp db0).papers,
      p.arxiv_id ∉ getExistingArticleIds db0.committed) ∧
    (∀ r ∈ (buildCorpusTask inp db0).db.committed,
      r ∈ db0.committed ∨
        r.article_id ∉ getExistingArticleIds db0.committed) := by
  refine ⟨fun a => getExistingArticleIds_mem _ a, ?_, ?_,
    run_no_insert_of_existing inp db0 h0⟩
  · rw [(buildCorpus_fields_ok inp db0 rs hso).2.1]
    exact fetchLoop_skipped _ rs 0
  · rw [(buildCorpus_fields_ok inp db0 rs hso).1]
    exact pipePapers_not_existing db0 rs

/-- Witness for C1: the sample run that rediscovers the known paper `dup`
skips it (one skipped candidate) and commits only rows whose ids are not
in the dedup snapshot. -/
theorem c1_dedup_snapshot_witness :
    (buildCorpus sampleInputs sampleDb).skipped =
      List.countP (fun r =>
        decide (entryArxivId r.entry_id ∈ getExistingArticleIds sampleDb.committed))
        [sampleResult "p/a0", sampleResult "p/dup"] ∧
    ∀ r ∈ (buildCorpusTask sampleInputs sampleDb).db.committed,
      r ∈ sampleDb.committed ∨
        r.article_id ∉ getExistingArticleIds sampleDb.committed :=
  ⟨(c1_dedup_snapshot sampleInputs sampleDb _ rfl rfl).2.1,
   (c1_dedup_snapshot sampleInputs sampleDb _ rfl rfl).2.2.2⟩

/-- Claim C2: job status writes only move forward along
extracting → fetching → parsing → chunking → embedding → ready; in every
trace (completed or interrupted by an unhandled failure) the terminal
statuses `ready` and `error` appear only as the last write; and `error`
is reachable from every non-terminal status. -/
theorem c2_status_machine (inp : BuildInputs) (db0 : DbState) :
    List.Pairwise statusLE (buildCorpusTask inp db0).statusWrites ∧
    (buildCorpusTask inp db0).statusWrites.getLast? =
      some (buildCorpusTask inp db0).finalStatus ∧
    (∀ s ∈ (buildCorpusTask inp db0).statusWrites.dropLast,
      s ≠ "ready" ∧ s ≠ "error") ∧
    (∀ k, List.Pairwise statusLE (interruptedWrites inp db0 k) ∧
      ∀ s ∈ (interruptedWrites inp db0 k).dropLast,
        s ≠ "ready" ∧ s ≠ "error") ∧
    (∀ st ∈ ["extracting", "fetching", "parsing", "chunking", "embedding"],
      ∃ (inp2 : BuildInputs) (db2 : DbState) (k : Nat) (pre : List String),
        interruptedWrites inp2 db2 k = pre ++ [st, "error"]) := by
  refine ⟨statusWrites_pairwise inp db0, statusWrites_getLast inp db0,
    statusWrites_dropLast_mem inp db0,
    fun k => ⟨interruptedWrites_pairwise inp db0 k,
      interruptedWrites_dropLast_mem inp db0 k⟩, ?_⟩
  intro st hst
  simp only [List.mem_cons, List.mem_singleton] at hst
  rcases hst with rfl | rfl | rfl | rfl | rfl | h
  · exact ⟨sampleInputs, sampleDb, 0, [], by decide⟩
  · exact ⟨sampleInputs, sampleDb, 2, ["extracting", "fetching"], by decide⟩
  · exact ⟨sampleInputs, sampleDb, 4,
      ["extracting", "fetching", "fetching", "parsing"], by decide⟩
  · exact ⟨sampleInputs, sampleDb, 6,
      ["extracting", "fetching", "fetching", "parsing", "parsing", "chunking"],
      by decide⟩
  · exact ⟨sampleInputs, sampleDb, 8,
      ["extracting", "fetching", "fetching", "parsing", "parsing", "chunking",
       "chunking", "embedding"], by decide⟩
  · cases h

/-- Witness for C2: in the sample run, `extracting` occurs before the
last status write and is neither terminal status. -/
theorem c2_status_machine_witness :
    "extracting" ∈ (buildCorpusTask sampleInputs sampleDb).statusWrites.dropLast ∧
    "extracting" ≠ "ready" ∧ "extracting" ≠ "error" :=
  ⟨by decide,
    (c2_status_machine sampleInputs sampleDb).2.2.1 "extracting" (by decide)⟩

/-- Claim C3: `query_rag` returns at most `k` sources, in non-increasing
score order; the underlying rows are ordered by ascending cosine
distance, and each source's score is `1 −` its row's cosine distance
rounded to 3 decimal places. -/
theorem c3_retrieval_ranking (embedQ : String → List ℚ)
    (cosDist : List ℚ → List ℚ → ℚ) (llm : String → String → String)
    (question : String) (rows : List ChunkRow) (k : Nat) :
    (queryRag embedQ cosDist llm question rows k).sources.length ≤ k ∧
    List.Pairwise (fun a b => b.score ≤ a.score)
      (queryRag embedQ cosDist llm question rows k).sources ∧
    List.Pairwise distLE (nnSearch cosDist (embedQ question) rows k) ∧
    (queryRag embedQ cosDist llm question rows k).sources =
      (nnSearch cosDist (embedQ question) rows k).map mkSource ∧
    (queryRag embedQ cosDist llm question rows k).sources.map
        (fun s => s.score) =
      (nnSearch cosDist (embedQ question) rows k).map
        (fun rd => round3 (1 - rd.2)) := by
  have hsrc := queryRag_sources embedQ cosDist llm question rows k
  refine ⟨?_, ?_, nnSearch_pairwise cosDist (embedQ question) rows k, hsrc, ?_⟩
  · rw [hsrc, List.length_map]
    exact nnSearch_length_le cosDist (embedQ question) rows k
  · rw [hsrc]
    refine List.Pairwise.map _ ?_
      (nnSearch_pairwise cosDist (embedQ question) rows k)
    intro a b hab
    show (mkSource b).score ≤ (mkSource a).score
    exact round3_mono (by have : a.2 ≤ b.2 := hab; linarith)
  · rw [hsrc, List.map_map]
    rfl

set_option maxRecDepth 8000 in
/-- Claim C4, counterexample: an extraction that succeeds with a cleaned
text of exactly 500 characters (not shorter than the minimum) is still
rejected by `_parse_pdf` — the code requires strictly more than 500
characters — so the paper receives the fallback text, not the extracted
text. -/
theorem c4_counterexample :
    cleanText raw500 = raw500 ∧
    ¬ raw500.length < 500 ∧
    parsePdf (some raw500) = none ∧
    fullTextOf (fun _ => some raw500) ⟨"id", "T", [], "S", "u"⟩ = "T\n\nS" ∧
    "T\n\nS" ≠ cleanText raw500 := by
  decide

/-- Claim C4 (amended: the extracted text must be strictly longer than
500 characters): `_parse_pdf` returns the cleaned text exactly when the
fetch succeeds and the cleaned text has more than 500 characters; on a
fetch/parse failure, or a cleaned text of at most 500 characters, the
paper's full text is the fallback composed of title and summary; the
parsing loop applies this to every paper and never fails. -/
theorem c4_extraction_fallback (oracle : String → Option String) (p : Paper) :
    (∀ raw, 500 < (cleanText raw).length →
      parsePdf (some raw) = some (cleanText raw)) ∧
    (∀ raw, (cleanText raw).length ≤ 500 → parsePdf (some raw) = none) ∧
    (parsePdf none = none) ∧
    (∀ raw, oracle p.pdf_url = some raw → 500 < (cleanText raw).length →
      fullTextOf oracle p = cleanText raw) ∧
    (oracle p.pdf_url = none → fullTextOf oracle p = fallbackText p) ∧
    (∀ raw, oracle p.pdf_url = some raw → (cleanText raw).length ≤ 500 →
      fullTextOf oracle p = fallbackText p) ∧
    (∀ ps i t, (parseLoop oracle ps i t).1 =
      ps.map (fun q => ⟨q, fullTextOf oracle q⟩)) := by
  have hpos : ∀ raw, 500 < (cleanText raw).length →
      parsePdf (some raw) = some (cleanText raw) := by
    intro raw h
    show (if 500 < (cleanText raw).length then some (cleanText raw) else none)
        = some (cleanText raw)
    rw [if_pos h]
  have hneg : ∀ raw, (cleanText raw).length ≤ 500 →
      parsePdf (some raw) = none := by
    intro raw h
    show (if 500 < (cleanText raw).length then some (cleanText raw) else none)
        = none
    rw [if_neg (by omega)]
  refine ⟨hpos, hneg, rfl, ?_, ?_, ?_, fun ps i t => parseLoop_parsed oracle ps i t⟩
  · intro raw hor h
    unfold fullTextOf
    rw [hor, hpos raw h]
  · intro hor
    unfold fullTextOf
    rw [hor]
    rfl
  · intro raw hor h
    unfold fullTextOf
    rw [hor, hneg raw h]

set_option maxRecDepth 8000 in
/-- Witness for C4: a 501-character extraction is kept as the full text. -/
theorem c4_extraction_fallback_witness :
    500 < (cleanText raw501).length ∧
    fullTextOf (fun _ => some raw501) ⟨"id", "T", [], "S", "u"⟩ =
      cleanText raw501 :=
  ⟨by decide,
    (c4_extraction_fallback (fun _ => some raw501)
      ⟨"id", "T", [], "S", "u"⟩).2.2.2.1 raw501 rfl (by decide)⟩

/-- Claim C5: the embedding stage partitions the chunk sequence into
`⌈N/100⌉` consecutive batches of at most 100 chunks, and its operation
trace is, per batch in index order: one batched embedding call, one
commit, and one progress event `("embedding", min(100·j, N), N)` after
the j-th batch. -/
theorem c5_embedding_batches (o : List String → Except String (List (List ℚ)))
    (jobId : String) (chunks : List Doc) (db0 : DbState)
    (hok : ∀ ts, ∃ vs, o ts = .ok vs) :
    (groupsOf 100 chunks).length = (chunks.length + 99) / 100 ∧
    (groupsOf 100 chunks).flatten = chunks ∧
    (∀ b ∈ groupsOf 100 chunks, b.length ≤ 100) ∧
    (embedBatches o jobId chunks.length (groupsOf 100 chunks) 0 db0).1 =
      embeddingStageSpec chunks.length (groupsOf 100 chunks) 0 ∧
    opsEvents (embedBatches o jobId chunks.length (groupsOf 100 chunks) 0 db0).1 =
      (List.range (groupsOf 100 chunks).length).map
        (fun j => ("embedding", min (100 * (j + 1)) chunks.length,
          chunks.length)) := by
  refine ⟨?_, groupsOf_flatten 100 (by norm_num) chunks,
    groupsOf_batch_le 100 (by norm_num) chunks,
    embedBatches_ops o jobId _ hok _ 0 db0, ?_⟩
  · rw [groupsOf_length 100 (by norm_num)]
    have h99 : chunks.length + 100 - 1 = chunks.length + 99 := by omega
    rw [h99]
  · rw [embedBatches_ops o jobId _ hok _ 0 db0, embeddingStageSpec_events]
    apply List.map_congr_left
    intro j _
    norm_num

/-- Witness for C5: one chunk forms a single batch whose trace is one
call, one commit and the clamped progress event `("embedding", 1, 1)`. -/
theorem c5_embedding_batches_witness :
    (groupsOf 100 [sampleDoc]).length = 1 ∧
    (embedBatches okOracle "job1" 1 (groupsOf 100 [sampleDoc]) 0 emptyDb).1 =
      embeddingStageSpec 1 (groupsOf 100 [sampleDoc]) 0 :=
  ⟨(c5_embedding_batches okOracle "job1" [sampleDoc] emptyDb
      (fun ts => ⟨ts.map (fun _ => [0]), rfl⟩)).1,
   (c5_embedding_batches okOracle "job1" [sampleDoc] emptyDb
      (fun ts => ⟨ts.map (fun _ => [0]), rfl⟩)).2.2.2.1⟩

/-- Claim C6: when a pipeline stage fails with a run-fatal error, the
background task sets the job's status to `error` (and that is the last
status write) with the failure message as its progress, the uncommitted
transaction is rolled back (no pending rows remain), and the committed
rows are the pre-run rows followed by the rows of the batches that
committed before the failure. -/
theorem c6_run_fatal (inp : BuildInputs) (db0 : DbState) (msg : String)
    (h0 : db0.pending = []) (hfail : (buildCorpus inp db0).err = some msg) :
    (buildCorpusTask inp db0).finalStatus = "error" ∧
    (buildCorpusTask inp db0).finalProgress = .failure msg ∧
    (buildCorpusTask inp db0).statusWrites.getLast? = some "error" ∧
    (buildCorpusTask inp db0).db.pending = [] ∧
    ((buildCorpusTask inp db0).db.committed = db0.committed ∨
      ∃ rs, inp.searchOutcome = .ok rs ∧ ∃ m,
        (buildCorpusTask inp db0).db.committed = db0.committed ++
          (((groupsOf 100 (pipeChunks inp db0 rs)).take m).map
            (batchRows inp.embedOracle inp.jobId)).flatten) := by
  obtain ⟨hst, hpr, hdb⟩ := buildCorpusTask_of_err inp db0 msg hfail
  refine ⟨hst, hpr, ?_, ?_, ?_⟩
  · rw [statusWrites_getLast inp db0, hst]
  · rw [hdb]
    rfl
  · rw [task_db_committed inp db0 h0]
    exact run_committed_shape inp db0 h0

/-- Witness for C6: with a failing embedding service the sample run ends
in `error` with the failure message recorded and the pre-run corpus
retained unchanged. -/
theorem c6_run_fatal_witness :
    (buildCorpus failInputs sampleDb).err = some "boom" ∧
    (buildCorpusTask failInputs sampleDb).finalStatus = "error" ∧
    (buildCorpusTask failInputs sampleDb).finalProgress = .failure "boom" ∧
    (buildCorpusTask failInputs sampleDb).db.pending = [] :=
  ⟨by decide,
   (c6_run_fatal failInputs sampleDb "boom" rfl (by decide)).1,
   (c6_run_fatal failInputs sampleDb "boom" rfl (by decide)).2.1,
   (c6_run_fatal failInputs sampleDb "boom" rfl (by decide)).2.2.2.1⟩

/-- Claim C7: when the nearest-neighbor search returns no rows (in
particular over an empty corpus, whose search always returns no rows),
`query_rag` returns exactly the fixed no-information answer with an empty
source list and performs no generation-model call. -/
theorem c7_empty_corpus (embedQ : String → List ℚ)
    (cosDist : List ℚ → List ℚ → ℚ) (llm : String → String → String)
    (question : String) (rows : List ChunkRow) (k : Nat)
    (h : nnSearch cosDist (embedQ question) rows k = []) :
    queryRag embedQ cosDist llm question rows k =
      ⟨"No relevant information found in the corpus.", [], 0⟩ ∧
    (queryRag embedQ cosDist llm question rows k).llmCalls = 0 ∧
    nnSearch cosDist (embedQ question) ([] : List ChunkRow) k = [] := by
  have hq := queryRag_of_empty embedQ cosDist llm question rows k h
  exact ⟨hq, by rw [hq], nnSearch_nil cosDist (embedQ question) k⟩

/-- Witness for C7: querying the empty corpus returns the fixed answer
with no sources and no model call. -/
theorem c7_empty_corpus_witness :
    queryRag (fun _ => []) (fun _ _ => 0) (fun _ _ => "ans") "q"
        ([] : List ChunkRow) 5 =
      ⟨"No relevant information found in the corpus.", [], 0⟩ :=
  (c7_empty_corpus (fun _ => []) (fun _ _ => 0) (fun _ _ => "ans") "q" [] 5
    (by decide)).1

/-- Claim C8, counterexample: for the chunk content `" a..."` the source
excerpt is `"a..."` (the code strips whitespace from the slice), which
ends in `"..."` although the content is not longer than 200 characters,
and which — after removing the trailing `"..."` — is not a prefix of the
chunk's content. -/
theorem c8_counterexample :
    (queryRag (fun _ => []) (fun _ _ => 0) (fun _ _ => "ans") "q"
        [rowStrip] 5).sources.map (fun s => s.excerpt) = ["a..."] ∧
    rowStrip.content = " a..." ∧
    rowStrip.content.toList.length ≤ 200 ∧
    "...".toList <:+ "a...".toList ∧
    ¬ "a".toList <+: rowStrip.content.toList := by
  refine ⟨by decide, rfl, by decide, by decide, by decide⟩

/-- Claim C8 (amended: the excerpt is the whitespace-stripped first 200
characters of the content — an infix, not necessarily a prefix, of the
content — and ends with `"..."` whenever, but not only when, the content
is longer than 200 characters): every source's excerpt is at most 203
characters. -/
theorem c8_excerpt (embedQ : String → List ℚ)
    (cosDist : List ℚ → List ℚ → ℚ) (llm : String → String → String)
    (question : String) (rows : List ChunkRow) (k : Nat) :
    ((queryRag embedQ cosDist llm question rows k).sources.map
        (fun s => s.excerpt) =
      (nnSearch cosDist (embedQ question) rows k).map
        (fun rd => mkExcerpt rd.1.content)) ∧
    ∀ content : String,
      (mkExcerpt content).toList.length ≤ 203 ∧
      (200 < content.toList.length →
        "...".toList <:+ (mkExcerpt content).toList) ∧
      pyStripL (content.toList.take 200) <:+: content.toList ∧
      (mkExcerpt content).toList = pyStripL (content.toList.take 200) ++
        (if 200 < content.toList.length then "...".toList else []) := by
  refine ⟨?_, fun content => ⟨mkExcerpt_length_le content,
    fun h => mkExcerpt_ellipsis content h, mkExcerpt_core_infix content,
    mkExcerpt_toList content⟩⟩
  rw [queryRag_sources, List.map_map]
  rfl

set_option maxRecDepth 8000 in
/-- Witness for C8: a 201-character content yields an excerpt ending in
`"..."`. -/
theorem c8_excerpt_witness :
    200 < longContent.toList.length ∧
    "...".toList <:+ (mkExcerpt longContent).toList :=
  ⟨by decide,
    ((c8_excerpt (fun _ => []) (fun _ _ => 0) (fun _ _ => "") "" [] 5).2
      longContent).2.1 (by decide)⟩

/-- Claim C9, counterexample: the candidate at index 10 is examined and
10 is divisible by 10, but because it is dropped as a duplicate the loop
emits no `("fetching", 10, 100)` event. -/
theorem c9_counterexample :
    elevenResults.length = 11 ∧
    entryArxivId (elevenResults.getD 10 (sampleResult "")).entry_id ∈
      ["dup"] ∧
    (fetchLoop ["dup"] elevenResults 0).2.1 = 1 ∧
    ("fetching", 10, 100) ∉ (fetchLoop ["dup"] elevenResults 0).2.2 := by
  decide

/-- Claim C9 (amended: dropped duplicates emit no event): the fetch
loop's progress events are exactly `("fetching", i, 100)` for each
*kept* candidate whose index `i` is divisible by 10; candidates dropped
as already-present duplicates emit nothing. -/
theorem c9_fetch_progress (ex : List String) (rs : List SearchResult)
    (i : Nat) :
    MAX_PAPERS = 100 ∧
    (fetchLoop ex rs i).2.2 = (rs.enumFrom i).filterMap (fun jr =>
      if entryArxivId jr.2.entry_id ∈ ex then none
      else if jr.1 % 10 = 0 then some ("fetching", jr.1, MAX_PAPERS)
      else none) :=
  ⟨rfl, fetchLoop_events ex rs i⟩

/-- Claim C10: the dedup set is the pre-run snapshot only: if the
discovery service returns several candidates with the same new external
id, the kept papers contain as many copies as the discovery list, and a
successful run commits at least two chunk rows with that article id. -/
theorem c10_within_run_duplicates (inp : BuildInputs) (db0 : DbState)
    (rs : List SearchResult) (a : String) (h0 : db0.pending = [])
    (hso : inp.searchOutcome = .ok rs)
    (ha : a ∉ db0.committed.map (fun r => r.article_id))
    (hok : ∀ ts, ∃ vs, inp.embedOracle ts = .ok vs ∧ ts.length ≤ vs.length)
    (h2 : 2 ≤ rs.countP (fun r => decide (entryArxivId r.entry_id = a))) :
    (buildCorpus inp db0).papers.countP (fun p => decide (p.arxiv_id = a)) =
      rs.countP (fun r => decide (entryArxivId r.entry_id = a)) ∧
    2 ≤ (buildCorpusTask inp db0).db.committed.countP
      (fun r => decide (r.article_id = a)) := by
  have hnotex : a ∉ getExistingArticleIds db0.committed := by
    rw [getExistingArticleIds_mem]
    rintro ⟨_, hmem⟩
    exact ha hmem
  have hpap : (buildCorpus inp db0).papers.countP
      (fun p => decide (p.arxiv_id = a)) =
      rs.countP (fun r => decide (entryArxivId r.entry_id = a)) := by
    rw [(buildCorpus_fields_ok inp db0 rs hso).1]
    exact fetchLoop_countP _ a hnotex rs 0
  refine ⟨hpap, ?_⟩
  have hids := run_new_ids inp db0 rs hso h0 hok
  rw [task_db_committed inp db0 h0]
  have hcnt : (buildCorpus inp db0).db.committed.countP
      (fun r => decide (r.article_id = a)) =
      ((buildCorpus inp db0).db.committed.map (fun r => r.article_id)).countP
        (fun s => decide (s = a)) := by
    rw [List.countP_map]
    rfl
  rw [hcnt, hids, List.countP_append]
  have hz : (db0.committed.map (fun r => r.article_id)).countP
      (fun s => decide (s = a)) = 0 := by
    rw [List.countP_eq_zero]
    intro s hs
    simp only [decide_eq_true_eq]
    rintro rfl
    exact ha hs
  have hchk : ((pipeChunks inp db0 rs).map (fun c => c.arxiv_id)).countP
      (fun s => decide (s = a)) =
      (pipeChunks inp db0 rs).countP (fun c => decide (c.arxiv_id = a)) := by
    rw [List.countP_map]
    rfl
  rw [hz, hchk]
  have hparsed : ((pipeParsed inp db0 rs).1).countP
      (fun pp => decide (pp.paper.arxiv_id = a)) =
      (pipePapers db0 rs).countP (fun p => decide (p.arxiv_id = a)) := by
    unfold pipeParsed
    rw [parseLoop_parsed, List.countP_map]
    rfl
  have hge : ((pipeParsed inp db0 rs).1).countP
      (fun pp => decide (pp.paper.arxiv_id = a)) ≤
      (pipeChunks inp db0 rs).countP (fun c => decide (c.arxiv_id = a)) := by
    unfold pipeChunks pipeChunked
    rw [chunkLoop_chunks]
    exact chunks_countP_ge inp.splitOracle a _
  have hpap2 : (pipePapers db0 rs).countP (fun p => decide (p.arxiv_id = a)) =
      rs.countP (fun r => decide (entryArxivId r.entry_id = a)) :=
    fetchLoop_countP _ a hnotex rs 0
  omega

/-- Witness for C10: a discovery list containing the same new paper
twice yields two kept papers and two committed chunk rows with that
article id. -/
theorem c10_within_run_duplicates_witness :
    (buildCorpus dupInputs emptyDb).papers.countP
        (fun p => decide (p.arxiv_id = "a0")) =
      List.countP (fun r => decide (entryArxivId r.entry_id = "a0"))
        [sampleResult "p/a0", sampleResult "p/a0"] ∧
    2 ≤ (buildCorpusTask dupInputs emptyDb).db.committed.countP
      (fun r => decide (r.article_id = "a0")) :=
  c10_within_run_duplicates dupInputs emptyDb
    [sampleResult "p/a0", sampleResult "p/a0"] "a0" rfl rfl (by decide)
    (fun ts => ⟨ts.map (fun _ => [0]), rfl, by simp⟩) (by decide)

end LitSearch
